import Mathlib

set_option maxRecDepth 1000000
set_option maxHeartbeats 4000000

/-!
Verification development for `cmaputil` (source file `cmaputil/cmaputil.py`).

Embedding conventions:
* Python floats are modelled by rationals (`ℚ`); all of the numeric code under
  scrutiny uses exact decimal steps (`0.1`, `5`, `1`) and divisions by constants,
  so the rational semantics is the ideal-arithmetic reading of the source.
* The external colorspace converter `colorspacious.cspace_convert` is out of
  scope (an external collaborator per the spec) and is a parameter of type
  `Conv`; `_find_J_bounds` composes it with `_valid_rgb` exactly as the source
  does.
* The `while` loops of `find_J_bounds` and of the Fit B search in `correct_J`
  can diverge for some inputs, so they are embedded with an explicit iteration
  budget (fuel); exceeding the budget yields `none` / a `fuelOut` result.
  A result of `none` for every budget is the embedding of a non-terminating run.
* numpy arrays are lists; a Python exception is a dedicated result constructor.
-/

/-- Argument as received by the external cspace converter inside the list
`[j, a, b]`: either a numpy scalar (the multi-column branch of `find_J_bounds`
passes `m[1, i]`, `m[2, i]`) or a whole 1-D row (the small-column branch passes
`m[1]`, `m[2]`). -/
inductive PyVal where
  | scalar (q : ℚ)
  | arr (v : List ℚ)
deriving DecidableEq

/-- External colorspace converter: models
`cspace_convert([j, a, b], CSPACE2, CSPACE1)` as used by `_find_J_bounds`
(cmaputil.py:114). The first component of the argument list is always the
scalar `J`; the second and third are whatever `find_J_bounds` passes. The
result models the three RGB channels `test_rgb[0..2]`. -/
abbrev Conv : Type := ℚ → PyVal → PyVal → ℚ × ℚ × ℚ

/-- Models `np.isfinite` on a converted channel. Every rational models a
finite float; NaN/infinity inputs are outside this embedding, so the check is
constantly `true` here. -/
def np_isfinite (_ : ℚ) : Bool := true

/-- Source `_valid_rgb(num, e=0.001)` (cmaputil.py:485-490):
`np.isfinite(num) and num < (1 + e) and num > -e`. The default argument
`e = 0.001` is passed explicitly at call sites as `1/1000`. -/
def _valid_rgb (num : ℚ) (e : ℚ) : Bool :=
  np_isfinite num && decide (num < 1 + e) && decide (num > -e)

/-- Source `_find_J_bounds(j, a, b)` (cmaputil.py:103-119): converts
`[j, a, b]` to RGB via the external converter and requires all three channels
to pass `_valid_rgb` (with its default tolerance). -/
def _find_J_bounds (conv : Conv) (j : ℚ) (a b : PyVal) : Bool :=
  let test_rgb := conv j a b
  _valid_rgb test_rgb.1 (1/1000) && _valid_rgb test_rgb.2.1 (1/1000) &&
    _valid_rgb test_rgb.2.2 (1/1000)

/-- The inner `while _find_J_bounds(J + 5, a, b): passed.append(J); J += 5`
loop of `find_J_bounds` (cmaputil.py:166-168 and 182-184). Returns the final
`J` and the extended `passed` list, or `none` when the iteration budget is
exhausted (the source loop has no upper bound on `J` and can diverge for a
converter that stays feasible). -/
def innerLoop (feas : ℚ → Bool) : ℚ → List ℚ → ℕ → Option (ℚ × List ℚ)
  | _, _, 0 => none
  | J, passed, fuel + 1 =>
    if feas (J + 5) then innerLoop feas (J + 5) (passed ++ [J]) fuel
    else some (J, passed)

/-- The outer `while J <= maxJ` scan of `find_J_bounds`
(cmaputil.py:163-169 and 179-185): test `J` itself, run the `+5` inner loop,
then step by `0.1` (here `1/10`, exact). Returns the recorded `passed` list. -/
def scanLoop (feas : ℚ → Bool) (maxJ : ℚ) : ℚ → List ℚ → ℕ → Option (List ℚ)
  | _, _, 0 => none
  | J, passed, fuel + 1 =>
    if J ≤ maxJ then
      let p1 := if feas J then passed ++ [J] else passed
      match innerLoop feas J p1 fuel with
      | none => none
      | some (J2, p2) => scanLoop feas maxJ (J2 + 1/10) p2 fuel
    else some passed

/-- Python `min(list)` on a nonempty list; the `[]` case stands for the
`ValueError` situation and is only reached where the source would raise
(handled explicitly at those call sites). -/
def minL : List ℚ → ℚ
  | [] => 0
  | h :: t => t.foldl min h

/-- Python `max(list)` on a nonempty list (see `minL`). -/
def maxL : List ℚ → ℚ
  | [] => 0
  | h :: t => t.foldl max h

/-- One pair's scan inside the multi-column branch of `find_J_bounds`
(cmaputil.py:158-169): the scan starts at the current running `minJ` and runs
up to the current running `maxJ`, with scalar `a`, `b` arguments. -/
def scanPassed (conv : Conv) (fuel : ℕ) (st : ℚ × ℚ) (ab : ℚ × ℚ) :
    Option (List ℚ) :=
  scanLoop (fun j => _find_J_bounds conv j (PyVal.scalar ab.1) (PyVal.scalar ab.2))
    st.2 st.1 [] fuel

/-- The per-pair update of the running `(minJ, maxJ)` state
(cmaputil.py:170-172): a pair with at least one recorded value narrows the
state to `(max minJ (min passed), min maxJ (max passed))`; a pair with no
recorded value leaves the state unchanged. -/
def aggStep (conv : Conv) (fuel : ℕ) (st : ℚ × ℚ) (ab : ℚ × ℚ) :
    Option (ℚ × ℚ) :=
  match scanPassed conv fuel st ab with
  | none => none
  | some [] => some st
  | some (p :: ps) => some (max st.1 (minL (p :: ps)), min st.2 (maxL (p :: ps)))

/-- The `for i in range(m.shape[1])` aggregation loop of `find_J_bounds`
(cmaputil.py:158-172), as a fold of `aggStep` over the chroma pairs. -/
def aggFold (conv : Conv) (fuel : ℕ) : List (ℚ × ℚ) → ℚ × ℚ → Option (ℚ × ℚ)
  | [], st => some st
  | ab :: rest, st =>
    match aggStep conv fuel st ab with
    | none => none
    | some st2 => aggFold conv fuel rest st2

/-- A J'a'b' ndarray as received by `find_J_bounds`: either 1-D (a single
column `m[:, i]`, as passed by `correct_J`) or 2-D with rows `m[0]`, `m[1]`,
`m[2]` of equal length (the column count is `m.shape[1]`). -/
inductive JabArr where
  | one (v : List ℚ)
  | two (j a b : List ℚ)
deriving DecidableEq

/-- The chroma pairs `(m[1, i], m[2, i])` for `i < m.shape[1]`. -/
def pairsOf (jr ar br : List ℚ) : List (ℚ × ℚ) :=
  (List.range jr.length).map (fun i => (ar.getD i 0, br.getD i 0))

/-- Result of `find_J_bounds`: a returned `(minJ, maxJ)` pair, the
`IndexError` raised by `m.shape[1]` on a 1-D array (cmaputil.py:157, flagged
by the source comment on line 156), the `ValueError` raised by `min([])` /
`max([])` (cmaputil.py:186-187), or an exhausted iteration budget. -/
inductive JRes where
  | ok (minJ maxJ : ℚ)
  | indexError
  | valueError
  | fuelOut
deriving DecidableEq

/-- Source `find_J_bounds(data, report=True)` (cmaputil.py:122-191) for array
input (`np.copy` makes the function pure; the `report` printing is a console
side effect with no bearing on the result). A 1-D input raises `IndexError`
at `m.shape[1]`. With more than 3 columns, each pair is scanned from the
running `minJ` to the running `maxJ` (initially `0`, `100`) and narrows the
running interval if it recorded any value. Otherwise the whole rows `m[1]`,
`m[2]` are used as the `a`, `b` arguments, the scan starts at `J = 0.5` with
fixed bound `100`, and `min(passed)`/`max(passed)` raise on an empty list. -/
def find_J_bounds (conv : Conv) (data : JabArr) (fuel : ℕ) : JRes :=
  match data with
  | JabArr.one _ => JRes.indexError
  | JabArr.two jr ar br =>
    if 3 < jr.length then
      match aggFold conv fuel (pairsOf jr ar br) (0, 100) with
      | none => JRes.fuelOut
      | some (lo, hi) => JRes.ok lo hi
    else
      match scanLoop (fun j => _find_J_bounds conv j (PyVal.arr ar) (PyVal.arr br))
          100 (1/2) [] fuel with
      | none => JRes.fuelOut
      | some [] => JRes.valueError
      | some (p :: ps) => JRes.ok (minL (p :: ps)) (maxL (p :: ps))

/-- A 3×N J'a'b' matrix with its three rows. -/
structure Jab where
  j : List ℚ
  a : List ℚ
  b : List ℚ
deriving DecidableEq

/-- Exact least-squares line `(slope, intercept)` for the points
`(i, y[i])` with `x = range(256)`, the mathematical content of both
`np.polyfit(range(256), y, 1)` (cmaputil.py:813) and
`np.linalg.lstsq` in `lin_fit` (cmaputil.py:794-798); the source hardcodes
`range(256)` for the x values in both places. -/
def lstsqLine (y : List ℚ) : ℚ × ℚ :=
  let xs : List ℚ := (List.range 256).map (fun i : ℕ => (i : ℚ))
  let sx := xs.sum
  let sy := y.sum
  let sxy := (List.zipWith (fun u v => u * v) xs y).sum
  let sxx := (xs.map (fun u => u * u)).sum
  let slope := (256 * sxy - sx * sy) / (256 * sxx - sx * sx)
  (slope, (sy - slope * sx) / 256)

/-- Source `lin_fit(y)` (cmaputil.py:794-798). Note the source quirk: it
returns `(a * x)[:, 0]`, which is the elementwise product of the coefficient
pair with the design matrix restricted to its first column — i.e. the line
`slope * i` WITHOUT the fitted intercept. Embedded faithfully. -/
def lin_fit (y : List ℚ) : List ℚ :=
  (List.range 256).map (fun i : ℕ => (lstsqLine y).1 * (i : ℚ))

/-- The initial least-squares line of Fit A,
`line_fit = slope * np.copy(range(256)) + b` (cmaputil.py:813-814). -/
def fitA_line0 (y : List ℚ) : List ℚ :=
  (List.range 256).map (fun i : ℕ => (lstsqLine y).1 * (i : ℚ) + (lstsqLine y).2)

/-- Models `np.linspace(lo, hi, n)` (cmaputil.py:820-822 uses
`np.linspace(1, 99, 256)` and `np.linspace(99, 1, 256)`). -/
def linspaceQ (lo hi : ℚ) (n : ℕ) : List ℚ :=
  (List.range n).map (fun i : ℕ => lo + (hi - lo) * (i : ℚ) / ((n : ℚ) - 1))

/-- Fit A (Method 1) of `correct_J` (cmaputil.py:811-823): least-squares line
through the original `J` row; if its maximum exceeds 99, re-fit `m[0,:] - 99`
with `lin_fit` and shift so the maximum is exactly 99; if the minimum then
falls below 1, fall back to the straight line 1→99 or 99→1 according to the
direction of the corrected line. -/
def fitA (y : List ℚ) : List ℚ :=
  let line0 := fitA_line0 y
  if 99 < maxL line0 then
    let lf := lin_fit (y.map (fun v => v - 99))
    let lf2 := lf.map (fun v => v + (99 - maxL lf))
    if minL lf2 < 1 then
      if lf2.headD 0 < lf2.getLastD 0 then linspaceQ 1 99 256
      else linspaceQ 99 1 256
    else lf2
  else line0

/-- The Fit B candidate line
`line_fit = (slope / 256.0) * np.asarray(range(256)) + b` (cmaputil.py:845). -/
def mkLine (slope b : ℚ) : List ℚ :=
  (List.range 256).map (fun i : ℕ => slope / 256 * (i : ℚ) + b)

/-- Source `_correct_J(low, high, line, m)` (cmaputil.py:783-791): accept the
candidate line iff no index violates `low[i] ≤ line[i] ≤ high[i]` (both
comprehension filters are empty); on acceptance the copy of `m` with row 0
replaced by the line is returned, otherwise `None`. -/
def _correct_J (low high line : List ℚ) (m : Jab) : Option Jab :=
  let test_upper := (List.zipWith (fun h x => h - x) high line).filter
    (fun x => x < 0)
  let test_lower := (List.zipWith (fun x lo => x - lo) line low).filter
    (fun x => x < 0)
  if test_upper.length + test_lower.length = 0 then
    some (Jab.mk line m.a m.b)
  else none

/-- The inner `while b <= max_b` intercept loop of Fit B
(cmaputil.py:844-861): try the candidate line; on acceptance return it; if
the line already exceeds the upper bound at either end, set `b = 100`
(which re-enters the loop test), else step by `delta_b`. `some none` models
falling out of the loop with `b > max_b`; `none` is an exhausted budget. -/
def fitB_inner (low high : List ℚ) (m : Jab) (max_b delta_b slope : ℚ) :
    ℚ → ℕ → Option (Option Jab)
  | _, 0 => none
  | b, fuel + 1 =>
    if b ≤ max_b then
      match _correct_J low high (mkLine slope b) m with
      | some m2 => some (some m2)
      | none =>
        if high.getLastD 0 < (mkLine slope b).getLastD 0 ∨
            high.headD 0 < (mkLine slope b).headD 0 then
          fitB_inner low high m max_b delta_b slope 100 fuel
        else
          fitB_inner low high m max_b delta_b slope (b + delta_b) fuel
    else some none

/-- The outer `while slope != 0` loop of Fit B (cmaputil.py:842-862): run the
intercept loop with `b` starting at `low[0]`; if it falls through, step the
slope by `delta_slope` and repeat. `some none` models reaching `slope == 0`
and returning `m1, None`; `none` is an exhausted budget — in particular the
source loop never terminates when the decrements skip over `0`. -/
def fitB_outer (low high : List ℚ) (m : Jab) (max_b delta_slope delta_b : ℚ) :
    ℚ → ℕ → Option (Option Jab)
  | _, 0 => none
  | slope, fuel + 1 =>
    if slope = 0 then some none
    else
      match fitB_inner low high m max_b delta_b slope (low.headD 0) fuel with
      | none => none
      | some (some m2) => some (some m2)
      | some none =>
        fitB_outer low high m max_b delta_slope delta_b (slope + delta_slope) fuel

/-- The fitting stage of `correct_J` (cmaputil.py:811-864), taking the
per-index bounds `low`, `high` as inputs (in the source they are produced by
the preceding loop, see `correct_J` below). Returns `none` when the Fit B
loop exhausts its budget, otherwise `some (m1, m2)` with `m1` the Fit A
result and `m2` the optional Fit B result (`none` = the source's `None`).
The plotting calls are display-only side effects and are omitted. -/
def correct_J_fits (low high : List ℚ) (m : Jab) (delta_slope delta_b : ℚ)
    (fuel : ℕ) : Option (Jab × Option Jab) :=
  let m1 := Jab.mk (fitA m.j) m.a m.b
  let max_b := max (high.headD 0) (high.getLastD 0)
  if m.j.headD 0 ≤ m.j.getLastD 0 then
    if high.getLastD 0 - low.headD 0 < 0 then some (m1, none)
    else
      match fitB_outer low high m max_b (-|delta_slope|) delta_b
          (high.getLastD 0 - low.headD 0) fuel with
      | none => none
      | some r => some (m1, r)
  else
    if 0 < low.getLastD 0 - high.headD 0 then some (m1, none)
    else
      match fitB_outer low high m max_b |delta_slope| delta_b
          (low.getLastD 0 - high.headD 0) fuel with
      | none => none
      | some r => some (m1, r)

/-- Result of the full `correct_J`: the returned pair, or the exception /
budget outcome of its internal `find_J_bounds` calls or Fit B loop. -/
inductive CJRes where
  | returned (m1 : Jab) (m2 : Option Jab)
  | indexError
  | valueError
  | fuelOut
deriving DecidableEq

/-- The per-column bounds loop of `correct_J` (cmaputil.py:804-809):
`for i in range(l): l, h = find_J_bounds(m[:, i], report=False)`. Each call
receives the 1-D column `m[:, i]`, so `find_J_bounds` hits `m.shape[1]` on a
1-D array (see `JRes.indexError`). -/
def boundsFor (conv : Conv) (m : Jab) (fuel : ℕ) :
    List ℕ → Except JRes (List ℚ × List ℚ)
  | [] => Except.ok ([], [])
  | i :: rest =>
    match find_J_bounds conv
        (JabArr.one [m.j.getD i 0, m.a.getD i 0, m.b.getD i 0]) fuel with
    | JRes.ok lo hi =>
      match boundsFor conv m fuel rest with
      | Except.ok (lows, highs) => Except.ok (lo :: lows, hi :: highs)
      | Except.error e => Except.error e
    | e => Except.error e

/-- Source `correct_J(m, name=None, delta_slope=1, delta_b=1)`
(cmaputil.py:801-864): compute per-column bounds with `find_J_bounds` on each
column `m[:, i]`, then run the two fits (`correct_J_fits`). Exceptions from
the bounds loop propagate. -/
def correct_J (conv : Conv) (m : Jab) (delta_slope delta_b : ℚ) (fuel : ℕ) :
    CJRes :=
  match boundsFor conv m fuel (List.range m.j.length) with
  | Except.error JRes.indexError => CJRes.indexError
  | Except.error JRes.valueError => CJRes.valueError
  | Except.error _ => CJRes.fuelOut
  | Except.ok (low, high) =>
    match correct_J_fits low high m delta_slope delta_b fuel with
    | none => CJRes.fuelOut
    | some (m1, m2) => CJRes.returned m1 m2

/-- Result of `_find_distance`. -/
inductive DistResult where
  | valueErrorType
  | sqrtOf (sumSq : ℚ)
deriving DecidableEq

/-- Source `_find_distance(p1, p2)` (cmaputil.py:460-470). On a length
mismatch the source executes `return ValueError`: it returns the exception
class object itself as an ordinary value — it does not raise;
`DistResult.valueErrorType` models that returned class object. On equal
lengths the source returns `sqrt(val)` with `val` the sum of squared
coordinate differences; `DistResult.sqrtOf val` carries the exact radicand,
since the square root of a rational is irrational in general. -/
def _find_distance (p1 p2 : List ℚ) : DistResult :=
  if p1.length = p2.length then
    DistResult.sqrtOf ((List.zipWith (fun u v => (v - u) ^ 2) p1 p2).sum)
  else DistResult.valueErrorType

/-- Models `np.interp(x, range(256), fp)` (cmaputil.py:875-876): piecewise
linear interpolation on the nodes `(i, fp[i])`, `i = 0..255`, with flat
extrapolation outside `[0, 255]` (the source hardcodes `old_x = range(256)`). -/
def npInterp256 (fp : List ℚ) (x : ℚ) : ℚ :=
  if x ≤ 0 then fp.getD 0 0
  else if 255 ≤ x then fp.getD 255 0
  else
    let i := (⌊x⌋).toNat
    fp.getD i 0 + (x - (i : ℚ)) * (fp.getD (i + 1) 0 - fp.getD i 0)

/-- The cumulative perceptual arc length of the upsampled curve
(cmaputil.py:878-881), with the point-to-point distance function as a
parameter (the source uses `_find_distance`, i.e. the Euclidean distance,
whose square root does not live in `ℚ`; the walk below consumes distances
only through sums and comparisons, so the resampler is embedded
parametrically in it). -/
def arcLen (dist : ℚ → ℚ → ℚ → ℚ → ℚ) (la lb : List ℚ) (l : ℕ) : ℚ :=
  (List.range (l - 1)).foldl
    (fun acc i => acc + dist (la.getD i 0) (lb.getD i 0)
      (la.getD (i + 1) 0) (lb.getD (i + 1) 0)) 0

/-- The committing walk of `make_linear` (cmaputil.py:885-901):
`while jab_ind < 254 and long_ind < l - 1`, accumulate the distance to the
current upsampled point; when the accumulated distance is closer to the next
multiple of `d` than it would be after one more segment, commit the current
upsampled point at index `jab_ind + 1` of the a/b rows. Each iteration
increments `long_ind`, so the loop runs at most `l - 2` times; the structural
counter `rem` (initialized to `l` by `make_linear`, strictly more than the
iteration bound) is therefore never exhausted on the caller's initialization
and exists only to express the recursion structurally. -/
def walkLoop (dist : ℚ → ℚ → ℚ → ℚ → ℚ) (la lb : List ℚ) (d : ℚ) (l : ℕ) :
    ℕ → ℕ → ℕ → ℚ → Jab → Jab
  | 0, _, _, _, cur => cur
  | rem + 1, jab_ind, long_ind, d_this, cur =>
    if jab_ind < 254 ∧ long_ind < l - 1 then
      if |d * ((jab_ind : ℚ) + 1) -
            (d_this + dist (la.getD (long_ind - 1) 0) (lb.getD (long_ind - 1) 0)
              (la.getD long_ind 0) (lb.getD long_ind 0))| <
          |d * ((jab_ind : ℚ) + 1) -
            (d_this + dist (la.getD (long_ind - 1) 0) (lb.getD (long_ind - 1) 0)
                (la.getD long_ind 0) (lb.getD long_ind 0) +
              dist (la.getD long_ind 0) (lb.getD long_ind 0)
                (la.getD (long_ind + 1) 0) (lb.getD (long_ind + 1) 0))| then
        walkLoop dist la lb d l rem (jab_ind + 1) (long_ind + 1)
          (d_this + dist (la.getD (long_ind - 1) 0) (lb.getD (long_ind - 1) 0)
            (la.getD long_ind 0) (lb.getD long_ind 0))
          (Jab.mk cur.j (cur.a.set (jab_ind + 1) (la.getD long_ind 0))
            (cur.b.set (jab_ind + 1) (lb.getD long_ind 0)))
      else
        walkLoop dist la lb d l rem jab_ind (long_ind + 1)
          (d_this + dist (la.getD (long_ind - 1) 0) (lb.getD (long_ind - 1) 0)
            (la.getD long_ind 0) (lb.getD long_ind 0)) cur
    else cur

/-- Source `make_linear(jab, l=10000)` (cmaputil.py:868-903): copy the input
(`np.copy`, so the caller's array is untouched), upsample the a/b rows to `l`
points by linear interpolation on `np.linspace(0, 255, l)`, compute the total
perceptual arc length and the target spacing `d = total / 255`, then walk the
upsampled curve committing interior points. The J row (row 0) is never
touched. -/
def make_linear (dist : ℚ → ℚ → ℚ → ℚ → ℚ) (jab : Jab) (l : ℕ) : Jab :=
  let long_a := (List.range l).map
    (fun k : ℕ => npInterp256 jab.a (255 * (k : ℚ) / ((l : ℚ) - 1)))
  let long_b := (List.range l).map
    (fun k : ℕ => npInterp256 jab.b (255 * (k : ℚ) / ((l : ℚ) - 1)))
  let d := arcLen dist long_a long_b l / 255
  walkLoop dist long_a long_b d l l 0 1 0 (Jab.mk jab.j jab.a jab.b)

/-! Concrete converters and inputs used to settle the individual claims. -/

/-- Converter with no feasible point at all: every channel converts to `5`,
far outside the tolerated `(-0.001, 1.001)` range. -/
def convNone : Conv := fun _ _ _ => (5, 5, 5)

/-- Converter whose feasible sets are the disjoint intervals `J ∈ [10, 20]`
for chroma pairs with `a = 1` and `J ∈ [50, 60]` for pairs with `a = 2`
(the spec's disjoint-ranges scenario). -/
def convDisj : Conv := fun j a _ =>
  if (a = PyVal.scalar 1 ∧ 10 ≤ j ∧ j ≤ 20) ∨
     (a = PyVal.scalar 2 ∧ 50 ≤ j ∧ j ≤ 60) then (1/2, 1/2, 1/2)
  else (5, 5, 5)

/-- Four-column J'a'b' data whose pairs alternate between the two disjoint
feasibility classes of `convDisj` (`a = 1, 1, 2, 2`). -/
def dataDisj4 : JabArr := JabArr.two [0, 0, 0, 0] [1, 1, 2, 2] [0, 0, 0, 0]

/-- Converter whose feasible set is `J ∈ [16, 20]` for chroma pairs with
`a = 1` and `J ∈ [10, 20]` for pairs with `a = 2` (whether passed as a numpy
scalar or as the 1-element row of a single-column array). -/
def convSub : Conv := fun j a _ =>
  if ((a = PyVal.scalar 1 ∨ a = PyVal.arr [1]) ∧ 16 ≤ j ∧ j ≤ 20) ∨
     ((a = PyVal.scalar 2 ∨ a = PyVal.arr [2]) ∧ 10 ≤ j ∧ j ≤ 20) then
    (1/2, 1/2, 1/2)
  else (5, 5, 5)

/-- Four-column data for `convSub`: pairs with `a = 1, 2, 1, 1`. -/
def dataSub4 : JabArr := JabArr.two [0, 0, 0, 0] [1, 2, 1, 1] [0, 0, 0, 0]

/-- The single pair `a = 2` of `dataSub4` on its own (one column). -/
def dataSub1 : JabArr := JabArr.two [0] [2] [0]

/-- Converter feasible exactly at `J = 50`. -/
def convFifty : Conv := fun j _ _ => if j = 50 then (1/2, 1/2, 1/2) else (5, 5, 5)

/-- Four-column data (all pairs alike) for `convFifty`. -/
def dataFour : JabArr := JabArr.two [0, 0, 0, 0] [1, 1, 1, 1] [0, 0, 0, 0]

/-- Converter feasible exactly at `J = 0`. -/
def convZero : Conv := fun j _ _ => if j = 0 then (1/2, 1/2, 1/2) else (5, 5, 5)

/-- Three-column data (takes the small-column branch of `find_J_bounds`). -/
def dataCols3 : JabArr := JabArr.two [0, 0, 0] [1, 1, 1] [0, 0, 0]

/-- Converter feasible only at `J = 3` and only when the `a` argument is the
whole row `[7, 8]` (never for a scalar `a`). -/
def convArrOnly : Conv := fun j a _ =>
  if j = 3 ∧ a = PyVal.arr [7, 8] then (1/2, 1/2, 1/2) else (5, 5, 5)

/-- Two-column data whose `a` row is `[7, 8]`. -/
def dataCols2 : JabArr := JabArr.two [0, 0] [7, 8] [0, 0]

/-- The spec scenario input for `correct_J`: constant trajectory `J = 10`
over 256 points (with zero chroma rows). -/
def m10 : Jab :=
  Jab.mk (List.replicate 256 10) (List.replicate 256 0) (List.replicate 256 0)

/-- The spec scenario per-index lower bounds: `low = [5] * 256`. -/
def low5 : List ℚ := List.replicate 256 5

/-- The spec scenario per-index upper bounds: `high = [90] * 256`. -/
def high90 : List ℚ := List.replicate 256 90

/-- The Fit B line actually found on the spec scenario: slope 85, intercept 5. -/
def mLine85 : Jab := Jab.mk (mkLine 85 5) m10.a m10.b

/-- Constant trajectory `J = 200` (drives Fit A's clamp-correction branch). -/
def m200 : Jab :=
  Jab.mk (List.replicate 256 200) (List.replicate 256 0) (List.replicate 256 0)

/-- Constant lower bounds 0. -/
def low0 : List ℚ := List.replicate 256 0

/-- Constant upper bounds 100. -/
def high100 : List ℚ := List.replicate 256 100

/-- All-zero trajectory (its first and last entries tie, so Fit B takes the
increasing-trend branch). -/
def mzero : Jab :=
  Jab.mk (List.replicate 256 0) (List.replicate 256 0) (List.replicate 256 0)

/-- Equal lower and upper bounds: 10 everywhere except 10.5 at the last
index. No line fits these bounds, and the induced initial Fit B slope is the
non-integer `1/2`. -/
def bumpyHalf : List ℚ :=
  (List.range 256).map (fun i : ℕ => if i = 255 then 21/2 else 10)

/-- Equal lower and upper bounds: 10 everywhere except 11 at the last index.
No line fits these bounds, and the induced initial Fit B slope is the
integer `1`. -/
def bumpyOne : List ℚ :=
  (List.range 256).map (fun i : ℕ => if i = 255 then 11 else 10)

/-! Claim theorems and their supporting lemmas. -/

/-- C7: the claim reads `_valid_rgb` as accepting the closed interval
`[-ε, 1+ε]`; the source test `num < (1 + e) and num > -e` is strict, so the
endpoint `-ε` itself (finite and inside the claimed closed interval) is
rejected. -/
theorem c7_counterexample :
    np_isfinite (-(1/1000) : ℚ) = true ∧
    -(1/1000 : ℚ) ≤ -(1/1000 : ℚ) ∧ (-(1/1000) : ℚ) ≤ 1 + 1/1000 ∧
    _valid_rgb (-(1/1000)) (1/1000) = false := by
  refine ⟨rfl, le_refl _, by norm_num, ?_⟩
  decide!

/-- C7 (amended): for the default epsilon `0.001`, `_valid_rgb` returns true
iff the value is finite and lies in the OPEN interval `(-ε, 1+ε)`. -/
theorem c7_theorem (num : ℚ) : _valid_rgb num (1/1000) = true ↔
    (np_isfinite num = true ∧ -(1/1000) < num ∧ num < 1 + 1/1000) := by
  simp only [_valid_rgb, np_isfinite, Bool.and_eq_true, decide_eq_true_eq,
    true_and, gt_iff_lt]
  tauto

/-- C8: on the length-mismatched input `p1 = (0,0)`, `p2 = (0,0,0)` the
source's `_find_distance` returns the `ValueError` class object itself as a
value instead of raising; on the equal-length input `(0,0)`, `(3,4)` it
returns the Euclidean distance `sqrt 25 = 5`. -/
theorem c8_theorem :
    _find_distance [0, 0] [0, 0, 0] = DistResult.valueErrorType ∧
    _find_distance [0, 0] [3, 4] = DistResult.sqrtOf 25 := by
  constructor
  · decide!
  · decide!

/-- C1: `find_J_bounds` never returns a distinguishable failure value. With a
converter admitting no feasible `J` for any pair, the four-column aggregation
returns the untouched defaults `(0, 100)`; with the spec's disjoint scenario
(pairs feasible on `[10, 20]` and on `[50, 60]`), it returns `(5, 15)` — a
normal-looking interval derived from the first pairs alone, the disjoint
pairs recording nothing inside the narrowed scan range and hence never
narrowing. The in-file callers' `minJ is None` checks can never fire. -/
theorem c1_code_behavior :
    find_J_bounds convNone dataFour 1200 = JRes.ok 0 100 ∧
    find_J_bounds convDisj dataDisj4 1200 = JRes.ok 5 15 := by
  constructor
  · decide!
  · decide!

/-- C10: branch selection and small-column behavior of `find_J_bounds`. With
a converter feasible only at `J = 0`: a 3-column input takes the small-column
branch, whose scan starts at `J = 0.5` and therefore records nothing, so
`min([])` raises (`valueError`); the same converter on a 4-column input takes
the aggregation branch, whose scan starts at `J = 0` and returns `(0, 0)`.
With a converter feasible only when the `a` argument is the whole row
`[7, 8]` (never for a scalar), a 2-column input returns `(3, 3)`, showing the
small-column branch passes the entire second and third rows to the
converter. -/
theorem c10_theorem :
    find_J_bounds convZero dataCols3 1200 = JRes.valueError ∧
    find_J_bounds convZero dataFour 1200 = JRes.ok 0 0 ∧
    find_J_bounds convArrOnly dataCols2 1200 = JRes.ok 3 3 := by
  refine ⟨?_, ?_, ?_⟩
  · decide!
  · decide!
  · decide!


/-- C6: the spec scenario (constant `J = 10` over 256 points, per-index
bounds `low = 5`, `high = 90`) does not behave as claimed. First, `correct_J`
itself raises: its bounds loop hands the 1-D column `m[:, i]` to
`find_J_bounds`, which hits `m.shape[1]` (`IndexError`; the source comments
on this at line 156). Second, even granting the stated bounds, the fit stage
accepts its very first Fit B candidate (slope `85 = high[-1] - low[0]`,
intercept `5 = low[0]`), so Fit B is a trajectory, not `NotFound`. -/
theorem c6_counterexample :
    correct_J convNone m10 1 1 60 = CJRes.indexError ∧
    (correct_J_fits low5 high90 m10 1 1 50).map Prod.snd ≠ some none := by
  constructor
  · decide!
  · decide!

/-- C6 (amended): on the spec scenario input, `correct_J` as written raises
`IndexError` inside its per-column bounds loop; taking the stated bounds as
given and running the fit stage, Fit A is the constant-10 trajectory (the
least-squares fit of constant data) and Fit B is the line
`i ↦ 5 + 85·i/256` — the first feasible candidate of the maximize-range
search — not `NotFound`. -/
theorem c6_theorem :
    correct_J_fits low5 high90 m10 1 1 50 = some (m10, some mLine85) ∧
    correct_J convNone m10 1 1 60 = CJRes.indexError := by
  constructor
  · decide!
  · decide!

/-- Helper: `getD` on a `zipWith` is the function applied pointwise. -/
theorem zipWith_getD (f : ℚ → ℚ → ℚ) :
    ∀ (l1 l2 : List ℚ) (i : ℕ), i < l1.length → i < l2.length →
      (List.zipWith f l1 l2).getD i 0 = f (l1.getD i 0) (l2.getD i 0) := by
  intro l1
  induction l1 with
  | nil => intro l2 i h1 _; simp at h1
  | cons x xs ih =>
    intro l2 i h1 h2
    cases l2 with
    | nil => simp at h2
    | cons y ys =>
      cases i with
      | zero => simp
      | succ k =>
        simp only [List.zipWith_cons_cons, List.getD_cons_succ]
        exact ih ys k (by simpa using h1) (by simpa using h2)

/-- Helper: a pointwise consequence of a universally quantified `zipWith`
membership fact. -/
theorem zipWith_forall_getD (f : ℚ → ℚ → ℚ) (l1 l2 : List ℚ)
    (h : ∀ x ∈ List.zipWith f l1 l2, ¬ x < 0) (i : ℕ)
    (h1 : i < l1.length) (h2 : i < l2.length) :
    ¬ f (l1.getD i 0) (l2.getD i 0) < 0 := by
  have hlen : i < (List.zipWith f l1 l2).length := by
    simpa [List.length_zipWith] using And.intro h1 h2
  have hmem : (List.zipWith f l1 l2).getD i 0 ∈ List.zipWith f l1 l2 := by
    rw [List.getD_eq_getElem?_getD, List.getElem?_eq_getElem hlen]
    exact List.getElem_mem hlen
  have := h _ hmem
  rwa [zipWith_getD f l1 l2 i h1 h2] at this

/-- Helper: an accepted `_correct_J` candidate satisfies both boundary
filters and returns the matrix with the line as its J row. -/
theorem correct_J_accepted (low high line : List ℚ) (m m2 : Jab)
    (hacc : _correct_J low high line m = some m2) :
    m2.j = line ∧
    (∀ x ∈ List.zipWith (fun h x => h - x) high line, ¬ x < 0) ∧
    (∀ x ∈ List.zipWith (fun x lo => x - lo) line low, ¬ x < 0) := by
  rw [_correct_J] at hacc
  split at hacc
  case isTrue hcond =>
    have hu : (List.zipWith (fun h x => h - x) high line).filter
        (fun x => decide (x < 0)) = [] := by
      refine List.length_eq_zero.mp ?_
      omega
    have hl : (List.zipWith (fun x lo => x - lo) line low).filter
        (fun x => decide (x < 0)) = [] := by
      refine List.length_eq_zero.mp ?_
      omega
    refine ⟨?_, ?_, ?_⟩
    · cases hacc; rfl
    · intro x hx
      have := List.filter_eq_nil_iff.mp hu x hx
      simpa using this
    · intro x hx
      have := List.filter_eq_nil_iff.mp hl x hx
      simpa using this
  case isFalse => exact absurd hacc (by simp)

/-- Helper: a found result of the Fit B intercept loop comes from an
accepted `_correct_J` candidate at the loop's slope. -/
theorem fitB_inner_found (low high : List ℚ) (m : Jab) (max_b delta_b slope : ℚ) :
    ∀ (fuel : ℕ) (b : ℚ) (m2 : Jab),
      fitB_inner low high m max_b delta_b slope b fuel = some (some m2) →
      ∃ b2, _correct_J low high (mkLine slope b2) m = some m2 := by
  intro fuel
  induction fuel with
  | zero => intro b m2 h; exact absurd h (by simp [fitB_inner])
  | succ k ih =>
    intro b m2 h
    rw [fitB_inner] at h
    split at h
    · rcases hc : _correct_J low high (mkLine slope b) m with _ | m2c
      · rw [hc] at h
        simp only at h
        split at h
        · exact ih 100 m2 h
        · exact ih (b + delta_b) m2 h
      · rw [hc] at h
        simp only [Option.some.injEq] at h
        exact ⟨b, by rw [hc, h]⟩
    · exact absurd h (by simp)

/-- Helper: a found result of the Fit B slope loop comes from an accepted
`_correct_J` candidate. -/
theorem fitB_outer_found (low high : List ℚ) (m : Jab) (max_b delta_slope delta_b : ℚ) :
    ∀ (fuel : ℕ) (slope : ℚ) (m2 : Jab),
      fitB_outer low high m max_b delta_slope delta_b slope fuel = some (some m2) →
      ∃ s2 b2, _correct_J low high (mkLine s2 b2) m = some m2 := by
  intro fuel
  induction fuel with
  | zero => intro s m2 h; exact absurd h (by simp [fitB_outer])
  | succ k ih =>
    intro s m2 h
    rw [fitB_outer] at h
    split at h
    · exact absurd h (by simp)
    · rcases hc : fitB_inner low high m max_b delta_b s (low.headD 0) k with _ | r
      · rw [hc] at h; exact absurd h (by simp)
      · rw [hc] at h
        cases r with
        | none => exact ih (s + delta_slope) m2 (by simpa using h)
        | some m2c =>
          simp only [Option.some.injEq] at h
          subst h
          exact ⟨s, fitB_inner_found low high m max_b delta_b s k (low.headD 0) _ hc⟩

/-- Helper: a Fit B trajectory returned by the fit stage comes from an
accepted `_correct_J` candidate line. -/
theorem correct_J_fits_found (low high : List ℚ) (m : Jab)
    (delta_slope delta_b : ℚ) (fuel : ℕ) (m1 m2 : Jab)
    (h : correct_J_fits low high m delta_slope delta_b fuel = some (m1, some m2)) :
    ∃ s2 b2, _correct_J low high (mkLine s2 b2) m = some m2 := by
  rw [correct_J_fits] at h
  split at h
  · split at h
    · simp at h
    · rcases hO : fitB_outer low high m (max (high.headD 0) (high.getLastD 0))
          (-|delta_slope|) delta_b (high.getLastD 0 - low.headD 0) fuel with _ | r
      · rw [hO] at h; simp at h
      · rw [hO] at h
        simp only [Option.some.injEq, Prod.mk.injEq] at h
        rw [h.2] at hO
        exact fitB_outer_found _ _ _ _ _ _ _ _ _ hO
  · split at h
    · simp at h
    · rcases hO : fitB_outer low high m (max (high.headD 0) (high.getLastD 0))
          |delta_slope| delta_b (low.getLastD 0 - high.headD 0) fuel with _ | r
      · rw [hO] at h; simp at h
      · rw [hO] at h
        simp only [Option.some.injEq, Prod.mk.injEq] at h
        rw [h.2] at hO
        exact fitB_outer_found _ _ _ _ _ _ _ _ _ hO

/-- Helper: every Fit B candidate line has 256 entries. -/
theorem mkLine_length (s b : ℚ) : (mkLine s b).length = 256 := by
  rw [mkLine, List.length_map, List.length_range]

/-- C3: whenever the fit stage of `correct_J` returns a Fit B trajectory
(`some m2` in the second component), that trajectory lies within the
per-index bounds at every index: `low[i] ≤ m2.j[i] ≤ high[i]` for all
`i < 256` (the per-index bounds are the stage's inputs; the source's own
bounds computation raises before reaching this stage, see C6). -/
theorem c3_theorem (low high : List ℚ) (m : Jab) (delta_slope delta_b : ℚ)
    (fuel : ℕ) (m1 m2 : Jab)
    (hlow : low.length = 256) (hhigh : high.length = 256)
    (hres : correct_J_fits low high m delta_slope delta_b fuel = some (m1, some m2)) :
    ∀ i, i < 256 → low.getD i 0 ≤ m2.j.getD i 0 ∧ m2.j.getD i 0 ≤ high.getD i 0 := by
  obtain ⟨s2, b2, hacc⟩ :=
    correct_J_fits_found low high m delta_slope delta_b fuel m1 m2 hres
  obtain ⟨hj, hu, hl⟩ := correct_J_accepted low high (mkLine s2 b2) m m2 hacc
  intro i hi
  have hlineLen : i < (mkLine s2 b2).length := by rw [mkLine_length]; exact hi
  have h1 := zipWith_forall_getD _ high (mkLine s2 b2) hu i (by omega) hlineLen
  have h2 := zipWith_forall_getD _ (mkLine s2 b2) low hl i hlineLen (by omega)
  rw [hj]
  constructor
  · linarith [not_lt.mp h2]
  · linarith [not_lt.mp h1]

/-- C3 witness: the spec scenario input instantiates the theorem — the
found Fit B line `i ↦ 5 + 85·i/256` lies within `low = 5`, `high = 90`. -/
theorem c3_witness :
    low5.length = 256 ∧ high90.length = 256 ∧
    correct_J_fits low5 high90 m10 1 1 50 = some (m10, some mLine85) ∧
    (∀ i, i < 256 →
      low5.getD i 0 ≤ mLine85.j.getD i 0 ∧ mLine85.j.getD i 0 ≤ high90.getD i 0) :=
  ⟨by decide!, by decide!, by decide!,
    c3_theorem low5 high90 m10 1 1 50 m10 mLine85 (by decide!) (by decide!) (by decide!)⟩

/-- Helper: anything at or below the initial accumulator, or in the list,
is at most the `max` fold. -/
theorem le_foldl_max : ∀ (t : List ℚ) (i x : ℚ), (x ≤ i ∨ x ∈ t) →
    x ≤ t.foldl max i := by
  intro t
  induction t with
  | nil =>
    intro i x hx
    rcases hx with hx | hx
    · simpa using hx
    · simp at hx
  | cons y t ih =>
    intro i x hx
    rcases hx with hx | hx
    · exact ih (max i y) x (Or.inl (le_trans hx (le_max_left i y)))
    · rcases List.mem_cons.mp hx with rfl | hx
      · exact ih (max i x) x (Or.inl (le_max_right i x))
      · exact ih (max i y) x (Or.inr hx)

/-- Helper: the `min` fold is at most the initial accumulator and every
list member. -/
theorem foldl_min_le : ∀ (t : List ℚ) (i x : ℚ), (i ≤ x ∨ x ∈ t) →
    t.foldl min i ≤ x := by
  intro t
  induction t with
  | nil =>
    intro i x hx
    rcases hx with hx | hx
    · simpa using hx
    · simp at hx
  | cons y t ih =>
    intro i x hx
    rcases hx with hx | hx
    · exact ih (min i y) x (Or.inl (le_trans (min_le_left i y) hx))
    · rcases List.mem_cons.mp hx with rfl | hx
      · exact ih (min i x) x (Or.inl (min_le_right i x))
      · exact ih (min i y) x (Or.inr hx)

/-- Helper: every member of a list is at most its Python `max`. -/
theorem mem_le_maxL (l : List ℚ) (x : ℚ) (hx : x ∈ l) : x ≤ maxL l := by
  cases l with
  | nil => simp at hx
  | cons h t =>
    rw [maxL]
    rcases List.mem_cons.mp hx with rfl | hx
    · exact le_foldl_max t x x (Or.inl le_rfl)
    · exact le_foldl_max t h x (Or.inr hx)

/-- Helper: the Python `min` of a list is at most every member. -/
theorem minL_le_mem (l : List ℚ) (x : ℚ) (hx : x ∈ l) : minL l ≤ x := by
  cases l with
  | nil => simp at hx
  | cons h t =>
    rw [minL]
    rcases List.mem_cons.mp hx with rfl | hx
    · exact foldl_min_le t x x (Or.inl le_rfl)
    · exact foldl_min_le t h x (Or.inr hx)

/-- Helper: a `max` fold commutes with a constant shift. -/
theorem foldl_max_map_add : ∀ (t : List ℚ) (i c : ℚ),
    (t.map (fun v => v + c)).foldl max (i + c) = t.foldl max i + c := by
  intro t
  induction t with
  | nil => intro i c; simp
  | cons y t ih =>
    intro i c
    simp only [List.map_cons, List.foldl_cons]
    rw [max_add_add_right, ih]

/-- Helper: the Python `max` of a shifted nonempty list is the shifted
`max`. -/
theorem maxL_map_add (l : List ℚ) (c : ℚ) (h : l ≠ []) :
    maxL (l.map (fun v => v + c)) = maxL l + c := by
  cases l with
  | nil => exact absurd rfl h
  | cons y t =>
    simp only [List.map_cons, maxL]
    exact foldl_max_map_add t y c

/-- Helper: members of the increasing clamp fallback line lie in `[1, 99]`. -/
theorem linspaceQ_inc_bounds (x : ℚ) (hx : x ∈ linspaceQ 1 99 256) :
    1 ≤ x ∧ x ≤ 99 := by
  rw [linspaceQ] at hx
  obtain ⟨i, hi, rfl⟩ := List.mem_map.mp hx
  have hiR : (i : ℚ) ≤ 255 := by
    have := List.mem_range.mp hi
    exact_mod_cast Nat.lt_succ_iff.mp this
  have h0 : (0 : ℚ) ≤ (i : ℚ) := Nat.cast_nonneg i
  have hn : ((256 : ℕ) : ℚ) - 1 = 255 := by norm_num
  rw [hn]
  have hfrac0 : 0 ≤ (99 - 1) * (i:ℚ) / 255 := by positivity
  have hfrac1 : (99 - 1) * (i:ℚ) / 255 ≤ 98 := by
    rw [div_le_iff₀ (by norm_num : (0:ℚ) < 255)]
    nlinarith
  constructor
  · linarith
  · linarith

/-- Helper: members of the decreasing clamp fallback line lie in `[1, 99]`. -/
theorem linspaceQ_dec_bounds (x : ℚ) (hx : x ∈ linspaceQ 99 1 256) :
    1 ≤ x ∧ x ≤ 99 := by
  rw [linspaceQ] at hx
  obtain ⟨i, hi, rfl⟩ := List.mem_map.mp hx
  have hiR : (i : ℚ) ≤ 255 := by
    have := List.mem_range.mp hi
    exact_mod_cast Nat.lt_succ_iff.mp this
  have h0 : (0 : ℚ) ≤ (i : ℚ) := Nat.cast_nonneg i
  have hn : ((256 : ℕ) : ℚ) - 1 = 255 := by norm_num
  rw [hn]
  have hfrac0 : (1 - 99) * (i:ℚ) / 255 ≤ 0 := by
    rw [div_le_iff₀ (by norm_num : (0:ℚ) < 255)]
    nlinarith
  have hfrac1 : -98 ≤ (1 - 99) * (i:ℚ) / 255 := by
    rw [le_div_iff₀ (by norm_num : (0:ℚ) < 255)]
    nlinarith
  constructor
  · linarith
  · linarith

/-- Helper: `lin_fit` always returns a nonempty (256-entry) list. -/
theorem lin_fit_ne_nil (y : List ℚ) : lin_fit y ≠ [] := by
  intro h
  have : (lin_fit y).length = 256 := by
    rw [lin_fit, List.length_map, List.length_range]
  rw [h] at this
  simp at this

/-- Helper: when the clamp-correction branch of Fit A triggers, every value
of the corrected trajectory lies in `[1, 99]`. -/
theorem fitA_clamped (y : List ℚ) (htrig : 99 < maxL (fitA_line0 y)) :
    ∀ v ∈ fitA y, 1 ≤ v ∧ v ≤ 99 := by
  intro v hv
  rw [fitA, if_pos htrig] at hv
  set lf := lin_fit (y.map (fun v => v - 99)) with hlf
  set lf2 := lf.map (fun v => v + (99 - maxL lf)) with hlf2
  by_cases hmin : minL lf2 < 1
  · rw [if_pos hmin] at hv
    by_cases hdir : lf2.headD 0 < lf2.getLastD 0
    · rw [if_pos hdir] at hv
      exact linspaceQ_inc_bounds v hv
    · rw [if_neg hdir] at hv
      exact linspaceQ_dec_bounds v hv
  · rw [if_neg hmin] at hv
    have hmax : maxL lf2 = 99 := by
      rw [hlf2, maxL_map_add lf _ (lin_fit_ne_nil _)]
      ring
    constructor
    · exact le_trans (not_lt.mp hmin) (minL_le_mem lf2 v hv)
    · rw [← hmax]
      exact mem_le_maxL lf2 v hv

/-- Helper: the fit stage always returns the Fit A matrix as its first
component. -/
theorem correct_J_fits_fst (low high : List ℚ) (m : Jab)
    (delta_slope delta_b : ℚ) (fuel : ℕ) (r : Jab × Option Jab)
    (h : correct_J_fits low high m delta_slope delta_b fuel = some r) :
    r.1 = Jab.mk (fitA m.j) m.a m.b := by
  rw [correct_J_fits] at h
  split at h
  · split at h
    · cases h; rfl
    · rcases hO : fitB_outer low high m (max (high.headD 0) (high.getLastD 0))
          (-|delta_slope|) delta_b (high.getLastD 0 - low.headD 0) fuel with _ | r2
      · rw [hO] at h; simp at h
      · rw [hO] at h
        simp only [Option.some.injEq] at h
        rw [← h]
  · split at h
    · cases h; rfl
    · rcases hO : fitB_outer low high m (max (high.headD 0) (high.getLastD 0))
          |delta_slope| delta_b (low.getLastD 0 - high.headD 0) fuel with _ | r2
      · rw [hO] at h; simp at h
      · rw [hO] at h
        simp only [Option.some.injEq] at h
        rw [← h]

/-- C5: whenever the clamp-correction branch of Fit A triggers (the initial
least-squares line's maximum exceeds 99), every value of the Fit A
trajectory returned by the fit stage of `correct_J` lies within `[1, 99]`. -/
theorem c5_theorem (low high : List ℚ) (m : Jab) (delta_slope delta_b : ℚ)
    (fuel : ℕ) (r : Jab × Option Jab)
    (hres : correct_J_fits low high m delta_slope delta_b fuel = some r)
    (htrig : 99 < maxL (fitA_line0 m.j)) :
    ∀ v ∈ r.1.j, 1 ≤ v ∧ v ≤ 99 := by
  rw [correct_J_fits_fst low high m delta_slope delta_b fuel r hres]
  exact fitA_clamped m.j htrig

/-- C5 witness: the constant-200 trajectory triggers the clamp branch
(initial least-squares line is the constant 200); the returned Fit A is the
constant 99, inside `[1, 99]`. -/
theorem c5_witness :
    correct_J_fits low0 high100 m200 1 1 50 =
      some (Jab.mk (List.replicate 256 99) m200.a m200.b,
        some (Jab.mk (mkLine 100 0) m200.a m200.b)) ∧
    99 < maxL (fitA_line0 m200.j) ∧
    ∀ v ∈ (Jab.mk (List.replicate 256 99) m200.a m200.b,
        some (Jab.mk (mkLine 100 0) m200.a m200.b)).1.j, 1 ≤ v ∧ v ≤ 99 :=
  ⟨by decide!, by decide!,
    c5_theorem low0 high100 m200 1 1 50 _ (by decide!) (by decide!)⟩

/-- Helper: `List.set` at one index leaves `getD` at any other index
unchanged. -/
theorem getD_set_ne (l : List ℚ) (k : ℕ) (v : ℚ) (i : ℕ) (h : k ≠ i) :
    (l.set k v).getD i 0 = l.getD i 0 := by
  simp [List.getD_eq_getElem?_getD, List.getElem?_set_ne h]

/-- Helper: the committing walk of `make_linear` never touches the J row,
never changes the row lengths, and never writes outside the interior indices
`1..254` (so the entries at positions 0 and 255 are preserved). -/
theorem walkLoop_preserves (dist : ℚ → ℚ → ℚ → ℚ → ℚ) (la lb : List ℚ)
    (d : ℚ) (l : ℕ) :
    ∀ (rem jab_ind long_ind : ℕ) (d_this : ℚ) (cur : Jab),
      (walkLoop dist la lb d l rem jab_ind long_ind d_this cur).j = cur.j ∧
      (walkLoop dist la lb d l rem jab_ind long_ind d_this cur).a.length =
        cur.a.length ∧
      (walkLoop dist la lb d l rem jab_ind long_ind d_this cur).b.length =
        cur.b.length ∧
      (walkLoop dist la lb d l rem jab_ind long_ind d_this cur).a.getD 0 0 =
        cur.a.getD 0 0 ∧
      (walkLoop dist la lb d l rem jab_ind long_ind d_this cur).b.getD 0 0 =
        cur.b.getD 0 0 ∧
      (walkLoop dist la lb d l rem jab_ind long_ind d_this cur).a.getD 255 0 =
        cur.a.getD 255 0 ∧
      (walkLoop dist la lb d l rem jab_ind long_ind d_this cur).b.getD 255 0 =
        cur.b.getD 255 0 := by
  intro rem
  induction rem with
  | zero =>
    intro jab_ind long_ind d_this cur
    rw [walkLoop]
    exact ⟨rfl, rfl, rfl, rfl, rfl, rfl, rfl⟩
  | succ k ih =>
    intro jab_ind long_ind d_this cur
    rw [walkLoop]
    by_cases hcond : jab_ind < 254 ∧ long_ind < l - 1
    · rw [if_pos hcond]
      split
      · have hne0 : jab_ind + 1 ≠ 0 := by omega
        have hne255 : jab_ind + 1 ≠ 255 := by omega
        obtain ⟨p1, p2, p3, p4, p5, p6, p7⟩ := ih (jab_ind + 1) (long_ind + 1)
          (d_this + dist (la.getD (long_ind - 1) 0) (lb.getD (long_ind - 1) 0)
            (la.getD long_ind 0) (lb.getD long_ind 0))
          (Jab.mk cur.j (cur.a.set (jab_ind + 1) (la.getD long_ind 0))
            (cur.b.set (jab_ind + 1) (lb.getD long_ind 0)))
        refine ⟨p1, ?_, ?_, ?_, ?_, ?_, ?_⟩
        · rw [p2]; exact List.length_set _ _ _
        · rw [p3]; exact List.length_set _ _ _
        · rw [p4]; exact getD_set_ne cur.a (jab_ind + 1) _ 0 hne0
        · rw [p5]; exact getD_set_ne cur.b (jab_ind + 1) _ 0 hne0
        · rw [p6]; exact getD_set_ne cur.a (jab_ind + 1) _ 255 hne255
        · rw [p7]; exact getD_set_ne cur.b (jab_ind + 1) _ 255 hne255
      · exact ih jab_ind (long_ind + 1)
          (d_this + dist (la.getD (long_ind - 1) 0) (lb.getD (long_ind - 1) 0)
            (la.getD long_ind 0) (lb.getD long_ind 0)) cur
    · rw [if_neg hcond]
      exact ⟨rfl, rfl, rfl, rfl, rfl, rfl, rfl⟩

/-- C9: `make_linear` returns a sequence of exactly the input's length: the
J row (row 0) is returned identically, the a/b row lengths are unchanged,
and the first point (index 0) and last point (index 255, for the expected
256-point input) keep their original a/b values — only interior a/b entries
are replaced. The source's `np.copy` means the caller's array is never
mutated, which the pure embedding reflects by construction. -/
theorem c9_theorem (dist : ℚ → ℚ → ℚ → ℚ → ℚ) (jab : Jab) (l : ℕ) :
    (make_linear dist jab l).j = jab.j ∧
    (make_linear dist jab l).a.length = jab.a.length ∧
    (make_linear dist jab l).b.length = jab.b.length ∧
    (make_linear dist jab l).a.getD 0 0 = jab.a.getD 0 0 ∧
    (make_linear dist jab l).b.getD 0 0 = jab.b.getD 0 0 ∧
    (make_linear dist jab l).a.getD 255 0 = jab.a.getD 255 0 ∧
    (make_linear dist jab l).b.getD 255 0 = jab.b.getD 255 0 := by
  rw [make_linear]
  exact walkLoop_preserves dist _ _ _ l l 0 1 0 (Jab.mk jab.j jab.a jab.b)

/-- Helper: one aggregation step never widens the running interval. -/
theorem aggStep_mono (conv : Conv) (fuel : ℕ) (st st2 : ℚ × ℚ) (ab : ℚ × ℚ)
    (h : aggStep conv fuel st ab = some st2) :
    st.1 ≤ st2.1 ∧ st2.2 ≤ st.2 := by
  rw [aggStep] at h
  rcases hs : scanPassed conv fuel st ab with _ | passed
  · rw [hs] at h; simp at h
  · rw [hs] at h
    cases passed with
    | nil =>
      simp only [Option.some.injEq] at h
      rw [← h]
      exact ⟨le_rfl, le_rfl⟩
    | cons p ps =>
      simp only [Option.some.injEq] at h
      rw [← h]
      exact ⟨le_max_left _ _, min_le_left _ _⟩

/-- Helper: the aggregation fold never widens the running interval. -/
theorem aggFold_mono (conv : Conv) (fuel : ℕ) :
    ∀ (l : List (ℚ × ℚ)) (st st2 : ℚ × ℚ),
      aggFold conv fuel l st = some st2 → st.1 ≤ st2.1 ∧ st2.2 ≤ st.2 := by
  intro l
  induction l with
  | nil =>
    intro st st2 h
    rw [aggFold] at h
    simp only [Option.some.injEq] at h
    rw [← h]
    exact ⟨le_rfl, le_rfl⟩
  | cons ab rest ih =>
    intro st st2 h
    rw [aggFold] at h
    rcases hstep : aggStep conv fuel st ab with _ | stm
    · rw [hstep] at h; simp at h
    · rw [hstep] at h
      have h1 := aggStep_mono conv fuel st stm ab hstep
      have h2 := ih stm st2 h
      exact ⟨le_trans h1.1 h2.1, le_trans h2.2 h1.2⟩

/-- Helper: the aggregation fold splits over list concatenation. -/
theorem aggFold_append (conv : Conv) (fuel : ℕ) :
    ∀ (l1 l2 : List (ℚ × ℚ)) (st : ℚ × ℚ),
      aggFold conv fuel (l1 ++ l2) st =
        match aggFold conv fuel l1 st with
        | none => none
        | some st2 => aggFold conv fuel l2 st2 := by
  intro l1
  induction l1 with
  | nil => intro l2 st; rfl
  | cons ab rest ih =>
    intro l2 st
    rw [List.cons_append, aggFold, aggFold]
    rcases hstep : aggStep conv fuel st ab with _ | stm
    · rfl
    · exact ih l2 stm

/-- Helper: the aggregation fold steps through a successful `aggStep`. -/
theorem aggFold_cons (conv : Conv) (fuel : ℕ) (ab : ℚ × ℚ)
    (rest : List (ℚ × ℚ)) (st st2 : ℚ × ℚ)
    (h : aggStep conv fuel st ab = some st2) :
    aggFold conv fuel (ab :: rest) st = aggFold conv fuel rest st2 := by
  show (match aggStep conv fuel st ab with
        | none => none
        | some st3 => aggFold conv fuel rest st3) = aggFold conv fuel rest st2
  rw [h]

/-- C2 (amended): for every chroma pair that records at least one feasible
value during the aggregation scan of `find_J_bounds`, the final aggregated
interval is contained in `[min recorded, max recorded]` of that pair's
recorded values: `minJ_agg ≥ min(passed_i)` and `maxJ_agg ≤ max(passed_i)`.
(Here `passed_i` is the list recorded by the pair's scan as it is actually
run inside the aggregation, i.e. from the running `minJ` up to the running
`maxJ`; the containment relative to the pair's standalone bound fails, see
the counterexample.) -/
theorem c2_theorem (conv : Conv) (fuel : ℕ) (jr ar br : List ℚ) (i : ℕ)
    (st1 : ℚ × ℚ) (passed : List ℚ) (lo hi : ℚ)
    (hcols : 3 < jr.length) (hilt : i < jr.length)
    (hpre : aggFold conv fuel ((pairsOf jr ar br).take i) (0, 100) = some st1)
    (hscan : scanPassed conv fuel st1 ((pairsOf jr ar br).getD i (0, 0)) =
      some passed)
    (hne : passed ≠ [])
    (hres : find_J_bounds conv (JabArr.two jr ar br) fuel = JRes.ok lo hi) :
    minL passed ≤ lo ∧ hi ≤ maxL passed := by
  rw [find_J_bounds, if_pos hcols] at hres
  rcases hAgg : aggFold conv fuel (pairsOf jr ar br) (0, 100) with _ | st2
  · rw [hAgg] at hres; simp at hres
  · rw [hAgg] at hres
    have hst2 : st2 = (lo, hi) := by
      obtain ⟨a2, b2⟩ := st2
      simp only [JRes.ok.injEq] at hres
      rw [hres.1, hres.2]
    subst hst2
    have hlenP : i < (pairsOf jr ar br).length := by
      rw [pairsOf, List.length_map, List.length_range]
      exact hilt
    have hgetD : (pairsOf jr ar br).getD i (0, 0) = (pairsOf jr ar br)[i] := by
      rw [List.getD_eq_getElem?_getD, List.getElem?_eq_getElem hlenP]
      rfl
    have hdecomp : pairsOf jr ar br =
        (pairsOf jr ar br).take i ++
          ((pairsOf jr ar br).getD i (0, 0) :: (pairsOf jr ar br).drop (i + 1)) := by
      rw [hgetD, ← List.drop_eq_getElem_cons hlenP, List.take_append_drop]
    rw [hdecomp, aggFold_append, hpre] at hAgg
    dsimp only at hAgg
    obtain ⟨q, qs, rfl⟩ := List.exists_cons_of_ne_nil hne
    have hstep : aggStep conv fuel st1 ((pairsOf jr ar br).getD i (0, 0)) =
        some (max st1.1 (minL (q :: qs)), min st1.2 (maxL (q :: qs))) := by
      rw [aggStep, hscan]
    rw [aggFold_cons conv fuel _ _ _ _ hstep] at hAgg
    have hmono := aggFold_mono conv fuel _ _ _ hAgg
    constructor
    · exact le_trans (le_max_right st1.1 (minL (q :: qs))) hmono.1
    · exact le_trans hmono.2 (min_le_right st1.2 (maxL (q :: qs)))

/-- C2 witness: with a converter feasible exactly at `J = 50` and four
identical pairs, the first pair's scan records `[45]` (the `+5` jump records
the pre-jump position) and narrows the state to `(45, 45)`; pair 1 (the
second pair) then records `[45]` again, and the final aggregate `(45, 45)`
is contained in `[min, max]` of its recorded values. -/
theorem c2_theorem_witness :
    (3 < ([0, 0, 0, 0] : List ℚ).length) ∧
    aggFold convFifty 1200 ((pairsOf [0, 0, 0, 0] [1, 1, 1, 1] [0, 0, 0, 0]).take 1)
      (0, 100) = some (45, 45) ∧
    scanPassed convFifty 1200 (45, 45)
      ((pairsOf [0, 0, 0, 0] [1, 1, 1, 1] [0, 0, 0, 0]).getD 1 (0, 0)) =
      some [45] ∧
    ([45] : List ℚ) ≠ [] ∧
    find_J_bounds convFifty (JabArr.two [0, 0, 0, 0] [1, 1, 1, 1] [0, 0, 0, 0])
      1200 = JRes.ok 45 45 ∧
    (minL [45] ≤ 45 ∧ (45 : ℚ) ≤ maxL [45]) :=
  ⟨by decide!, by decide!, by decide!, by decide!, by decide!,
    c2_theorem convFifty 1200 [0, 0, 0, 0] [1, 1, 1, 1] [0, 0, 0, 0] 1
      (45, 45) [45] 45 45 (by decide!) (by decide!) (by decide!) (by decide!)
      (by decide!) (by decide!)⟩

/-- C2: the claim as stated — the aggregate interval is contained in the
bound computed for any single pair of the set on its own — is false. With
`convSub` (pair class `a = 1` feasible on `[16, 20]`, class `a = 2` feasible
on `[10, 20]`) and pairs `a = 1, 2, 1, 1`, the aggregate is `(11, 20)`;
`find_J_bounds` on the single pair `a = 2` alone returns `(5, 15)` (its
standalone scan enters the feasible region via `+5` jumps, which record the
pre-jump positions and skip the region's top), and `20 ≤ 15` fails. -/
theorem c2_counterexample :
    find_J_bounds convSub dataSub4 1200 = JRes.ok 11 20 ∧
    find_J_bounds convSub dataSub1 1200 = JRes.ok 5 15 ∧
    ¬ ((20 : ℚ) ≤ 15) := by
  refine ⟨by decide!, by decide!, by norm_num⟩

/-- Helper: a `zipWith` of two maps over the same list is a map of the
pointwise combination. -/
theorem zipWith_map_map (f : ℚ → ℚ → ℚ) (g h : ℕ → ℚ) :
    ∀ l : List ℕ,
      List.zipWith f (l.map g) (l.map h) = l.map (fun x => f (g x) (h x)) := by
  intro l
  induction l with
  | nil => rfl
  | cons x xs ih => simp only [List.map_cons, List.zipWith_cons_cons, ih]

/-- Helper: a filter over a mapped range is nonempty once one in-range index
satisfies the predicate. -/
theorem filter_map_range_ne_nil (F : ℕ → ℚ) (n i0 : ℕ) (hi : i0 < n)
    (hF : F i0 < 0) :
    ((List.range n).map F).filter (fun x => decide (x < 0)) ≠ [] := by
  have hmem : F i0 ∈ (List.range n).map F :=
    List.mem_map_of_mem F (List.mem_range.mpr hi)
  have hmem2 : F i0 ∈ ((List.range n).map F).filter (fun x => decide (x < 0)) :=
    List.mem_filter.mpr ⟨hmem, by simpa using hF⟩
  exact List.ne_nil_of_mem hmem2

/-- Helper: with equal lower and upper bounds that are 10 everywhere except
`c > 10` at the last index, no candidate line is ever accepted by
`_correct_J`: a feasible line would need intercept 10 (index 0), slope 0
(index 1), and value `c ≠ 10` at index 255. -/
theorem bumpy_reject (c : ℚ) (hc : 10 < c) (m : Jab) (s b : ℚ) :
    _correct_J ((List.range 256).map (fun i : ℕ => if i = 255 then c else 10))
      ((List.range 256).map (fun i : ℕ => if i = 255 then c else 10))
      (mkLine s b) m = none := by
  rw [_correct_J]
  split
  case isFalse => rfl
  case isTrue hcond =>
    exfalso
    have hU : (List.zipWith (fun h x => h - x)
        ((List.range 256).map (fun i : ℕ => if i = 255 then c else 10))
        (mkLine s b)).filter (fun x => decide (x < 0)) = [] := by
      refine List.length_eq_zero.mp ?_
      omega
    have hL : (List.zipWith (fun x lo => x - lo) (mkLine s b)
        ((List.range 256).map (fun i : ℕ => if i = 255 then c else 10))).filter
        (fun x => decide (x < 0)) = [] := by
      refine List.length_eq_zero.mp ?_
      omega
    rw [mkLine, zipWith_map_map] at hU
    rw [mkLine, zipWith_map_map] at hL
    rcases lt_trichotomy b 10 with hb | hb | hb
    · refine filter_map_range_ne_nil _ 256 0 (by norm_num) ?_ hL
      show s / 256 * ((0 : ℕ) : ℚ) + b - 10 < 0
      push_cast
      linarith
    · rcases lt_trichotomy s 0 with hs | hs | hs
      · refine filter_map_range_ne_nil _ 256 1 (by norm_num) ?_ hL
        show s / 256 * ((1 : ℕ) : ℚ) + b - 10 < 0
        push_cast
        linarith
      · refine filter_map_range_ne_nil _ 256 255 (by norm_num) ?_ hL
        show s / 256 * ((255 : ℕ) : ℚ) + b - c < 0
        push_cast
        rw [hs, hb]
        linarith
      · refine filter_map_range_ne_nil _ 256 1 (by norm_num) ?_ hU
        show 10 - (s / 256 * ((1 : ℕ) : ℚ) + b) < 0
        push_cast
        linarith
    · refine filter_map_range_ne_nil _ 256 0 (by norm_num) ?_ hU
      show 10 - (s / 256 * ((0 : ℕ) : ℚ) + b) < 0
      push_cast
      linarith

/-- Helper: `bumpy_reject` specialized to the non-integer-slope bounds. -/
theorem bumpyHalf_reject (m : Jab) (s b : ℚ) :
    _correct_J bumpyHalf bumpyHalf (mkLine s b) m = none :=
  bumpy_reject (21/2) (by norm_num) m s b

/-- Helper: on the `bumpyHalf` bounds the Fit B intercept loop never finds a
candidate: it either exhausts its budget or falls out with `b > max_b`. -/
theorem bumpyHalf_inner (s : ℚ) :
    ∀ (f : ℕ) (b : ℚ),
      fitB_inner bumpyHalf bumpyHalf mzero (21/2) 1 s b f = none ∨
      fitB_inner bumpyHalf bumpyHalf mzero (21/2) 1 s b f = some none := by
  intro f
  induction f with
  | zero =>
    intro b
    left
    rfl
  | succ k ih =>
    intro b
    rw [fitB_inner]
    by_cases hb : b ≤ 21/2
    · rw [if_pos hb, bumpyHalf_reject mzero s b]
      dsimp only
      split
      · exact ih 100
      · exact ih (b + 1)
    · rw [if_neg hb]
      right
      rfl

/-- Helper: on the `bumpyHalf` bounds the Fit B slope loop runs forever:
starting from the non-integer slope `1/2`, the unit decrements reach
`1/2 - k` for every `k` but never `0`, so the `while slope != 0` test never
fails and every iteration budget is exhausted. -/
theorem bumpyHalf_outer :
    ∀ (f k : ℕ),
      fitB_outer bumpyHalf bumpyHalf mzero (21/2) (-1) 1 ((1 : ℚ)/2 - k) f =
        none := by
  intro f
  induction f with
  | zero => intro k; rfl
  | succ n ih =>
    intro k
    rw [fitB_outer]
    have hs : (1 : ℚ)/2 - k ≠ 0 := by
      intro h
      have h2 : ((2 * k : ℕ) : ℚ) = 1 := by
        push_cast
        linarith
      have h3 : (2 * k : ℕ) = 1 := by exact_mod_cast h2
      omega
    rw [if_neg hs]
    rcases bumpyHalf_inner ((1 : ℚ)/2 - k) n (bumpyHalf.headD 0) with h | h
    · rw [h]
    · rw [h]
      have hcast : (1 : ℚ)/2 - k + -1 = (1 : ℚ)/2 - ((k + 1 : ℕ) : ℚ) := by
        push_cast
        ring
      rw [hcast]
      exact ih (k + 1)

/-- C4: the claim is false. On the `bumpyHalf` bounds (10 everywhere, 10.5
at the last index) no `(slope, intercept)` candidate line is feasible — the
claim's precondition — yet the Fit B search does not terminate with
`NotFound`: the initial slope `high[-1] - low[0] = 1/2` is not an integer
multiple of the unit slope decrement, the decrements skip over `0`, the
`while slope != 0` loop never exits, and every iteration budget is
exhausted. -/
theorem c4_counterexample :
    (∀ s b, _correct_J bumpyHalf bumpyHalf (mkLine s b) mzero = none) ∧
    (∀ fuel, correct_J_fits bumpyHalf bumpyHalf mzero 1 1 fuel = none) := by
  constructor
  · exact fun s b => bumpyHalf_reject mzero s b
  · intro fuel
    rw [correct_J_fits]
    rw [if_pos (by decide! : mzero.j.headD 0 ≤ mzero.j.getLastD 0)]
    rw [if_neg (by decide! : ¬(bumpyHalf.getLastD 0 - bumpyHalf.headD 0 < 0))]
    have h1 : max (bumpyHalf.headD 0) (bumpyHalf.getLastD 0) = 21/2 := by
      decide!
    have h2 : bumpyHalf.getLastD 0 - bumpyHalf.headD 0 = (1 : ℚ)/2 - ((0 : ℕ) : ℚ) := by
      decide!
    have h3 : -|(1 : ℚ)| = -1 := by norm_num
    rw [h1, h2, h3, bumpyHalf_outer fuel 0]

/-- Helper: a rational is below its ceiling's truncation plus one. -/
theorem lt_ceil_toNat_add_one (x : ℚ) : x < (⌈x⌉.toNat : ℚ) + 1 := by
  have h1 : x ≤ (⌈x⌉ : ℚ) := Int.le_ceil x
  have h2 : ((⌈x⌉ : ℤ) : ℚ) ≤ ((⌈x⌉.toNat : ℕ) : ℚ) := by
    exact_mod_cast Int.self_le_toNat ⌈x⌉
  linarith

/-- Helper: the Fit B intercept loop exits immediately once `b > max_b`. -/
theorem fitB_inner_exit (low high : List ℚ) (m : Jab) (max_b delta_b s b : ℚ)
    (hb : ¬ b ≤ max_b) (f : ℕ) (hf : 1 ≤ f) :
    fitB_inner low high m max_b delta_b s b f = some none := by
  obtain ⟨f2, rfl⟩ : ∃ f2, f = f2 + 1 := ⟨f - 1, by omega⟩
  rw [fitB_inner, if_neg hb]

/-- Helper: when no candidate line is ever accepted and `max_b < 100`, the
Fit B intercept loop (with the default unit increment) falls out with
`b > max_b` within a budget linear in `max_b - b`. -/
theorem fitB_inner_term (low high : List ℚ) (m : Jab) (max_b : ℚ)
    (hrej : ∀ s b, _correct_J low high (mkLine s b) m = none)
    (hmb : max_b < 100) (s : ℚ) :
    ∀ (n : ℕ) (b : ℚ) (f : ℕ), max_b - b < (n : ℚ) → n + 1 ≤ f →
      fitB_inner low high m max_b 1 s b f = some none := by
  intro n
  induction n with
  | zero =>
    intro b f h1 h2
    push_cast at h1
    refine fitB_inner_exit low high m max_b 1 s b ?_ f (by omega)
    intro hb
    linarith
  | succ k ih =>
    intro b f h1 h2
    push_cast at h1
    obtain ⟨f2, rfl⟩ : ∃ f2, f = f2 + 1 := ⟨f - 1, by omega⟩
    rw [fitB_inner]
    by_cases hb : b ≤ max_b
    · rw [if_pos hb, hrej s b]
      dsimp only
      split
      · refine fitB_inner_exit low high m max_b 1 s 100 ?_ f2 (by omega)
        intro hc
        linarith
      · refine ih (b + 1) f2 ?_ (by omega)
        linarith
    · rw [if_neg hb]

/-- Helper: when no candidate line is ever accepted, `max_b < 100` and the
slope is the integer `k` (counted down by the unit decrement), the Fit B
slope loop reaches `0` and returns the `NotFound` outcome within a budget
linear in `k`. -/
theorem fitB_outer_term (low high : List ℚ) (m : Jab) (max_b : ℚ)
    (hrej : ∀ s b, _correct_J low high (mkLine s b) m = none)
    (hmb : max_b < 100) :
    ∀ (k f : ℕ), (k + 1) * (⌈max_b - low.headD 0⌉.toNat + 3) ≤ f →
      fitB_outer low high m max_b (-1) 1 (k : ℚ) f = some none := by
  intro k
  induction k with
  | zero =>
    intro f hf
    obtain ⟨f2, rfl⟩ : ∃ f2, f = f2 + 1 := ⟨f - 1, by omega⟩
    rw [fitB_outer]
    rw [if_pos (by norm_num : ((0 : ℕ) : ℚ) = 0)]
  | succ j ih =>
    intro f hf
    have hmul : 2 * (⌈max_b - low.headD 0⌉.toNat + 3) ≤
        (j + 1 + 1) * (⌈max_b - low.headD 0⌉.toNat + 3) :=
      Nat.mul_le_mul_right _ (by omega)
    obtain ⟨f2, rfl⟩ : ∃ f2, f = f2 + 1 := ⟨f - 1, by omega⟩
    rw [fitB_outer]
    have hs : ((j + 1 : ℕ) : ℚ) ≠ 0 := by
      push_cast
      positivity
    rw [if_neg hs]
    have hinner : fitB_inner low high m max_b 1 ((j + 1 : ℕ) : ℚ)
        (low.headD 0) f2 = some none := by
      refine fitB_inner_term low high m max_b hrej hmb _
        (⌈max_b - low.headD 0⌉.toNat + 2) (low.headD 0) f2 ?_ ?_
      · push_cast
        have := lt_ceil_toNat_add_one (max_b - low.headD 0)
        linarith
      · omega
    rw [hinner]
    dsimp only
    have hc : ((j + 1 : ℕ) : ℚ) + -1 = ((j : ℕ) : ℚ) := by
      push_cast
      ring
    rw [hc]
    refine ih f2 ?_
    have hsplit : (j + 1 + 1) * (⌈max_b - low.headD 0⌉.toNat + 3) =
        (j + 1) * (⌈max_b - low.headD 0⌉.toNat + 3) +
          (⌈max_b - low.headD 0⌉.toNat + 3) := by ring
    omega

/-- C4 (amended): on an increasing-trend input whose initial Fit B slope
`high[-1] - low[0]` is a nonnegative integer multiple of the default unit
slope decrement, with `max(high[0], high[-1]) < 100` (so the `b = 100` jump
exits the intercept loop) and no feasible candidate line at all, the Fit B
search terminates: some finite iteration budget suffices, and the result is
`(Fit A, NotFound)`. Without the integrality of the initial slope the search
need not terminate (see the counterexample). -/
theorem c4_theorem (low high : List ℚ) (m : Jab) (n : ℕ)
    (hinc : m.j.headD 0 ≤ m.j.getLastD 0)
    (hslope : high.getLastD 0 - low.headD 0 = (n : ℚ))
    (hrej : ∀ s b, _correct_J low high (mkLine s b) m = none)
    (hmb : max (high.headD 0) (high.getLastD 0) < 100) :
    ∃ fuel, correct_J_fits low high m 1 1 fuel =
      some (Jab.mk (fitA m.j) m.a m.b, none) := by
  refine ⟨(n + 1) *
    (⌈max (high.headD 0) (high.getLastD 0) - low.headD 0⌉.toNat + 3), ?_⟩
  rw [correct_J_fits]
  rw [if_pos hinc]
  rw [if_neg (by rw [hslope]; exact not_lt.mpr (Nat.cast_nonneg n))]
  rw [hslope]
  have h3 : -|(1 : ℚ)| = -1 := by norm_num
  rw [h3]
  rw [fitB_outer_term low high m _ hrej hmb n _ le_rfl]

/-- C4 witness: the `bumpyOne` bounds (10 everywhere, 11 at the last index)
admit no feasible line, the initial slope is the integer `1`, and
`max(high[0], high[-1]) = 11 < 100`; the amended theorem yields a finite
budget with outcome `(Fit A, NotFound)`. -/
theorem c4_witness :
    (mzero.j.headD 0 ≤ mzero.j.getLastD 0) ∧
    (bumpyOne.getLastD 0 - bumpyOne.headD 0 = ((1 : ℕ) : ℚ)) ∧
    (max (bumpyOne.headD 0) (bumpyOne.getLastD 0) < 100) ∧
    ∃ fuel, correct_J_fits bumpyOne bumpyOne mzero 1 1 fuel =
      some (Jab.mk (fitA mzero.j) mzero.a mzero.b, none) :=
  ⟨by decide!, by decide!, by decide!,
    c4_theorem bumpyOne bumpyOne mzero 1 (by decide!) (by decide!)
      (fun s b => bumpy_reject 11 (by norm_num) mzero s b) (by decide!)⟩
